import Mathlib

/-!
Verification of the Hashoo daily-rooms-stats reconciliation engine
(`src/app.py`) against its natural-language specification.

The embedding models the tabular pandas code at the level of typed row
lists: a dataframe is a `List` of structures, numeric cells that may be
`NaN` (after `pd.to_numeric(..., errors='coerce')`) are `Option ℚ`, and
dates that always parse are `Nat` ordinals.  Round-tripping through the
spreadsheet's string cells is value-preserving and is not modelled.
-/

namespace HashooStats

/-- A row of the persisted Actual table, as manipulated by
`update_google_sheet` after numeric coercion: `occ`/`revenue` are the
`Total Occ`/`Revenue` columns (`none` = NaN), `rate` is `Avg Rate`,
and the two pickup columns are `none` when never computed. -/
structure Row where
  property : String
  date : Nat
  occ : Option ℚ
  rate : Option ℚ
  revenue : Option ℚ
  label : String
  monthYear : String
  pickupOcc : Option ℚ
  pickupRev : Option ℚ
deriving DecidableEq, Repr

/-- Pandas `(a - b).fillna(0)`: the subtraction propagates NaN, which the
`fillna` then replaces by 0; so the result is `x - y` only when both
operands are present, and `0` otherwise (lines 130-138 of `app.py`). -/
def subFillna (a b : Option ℚ) : ℚ :=
  match a, b with
  | some x, some y => x - y
  | _, _ => 0

/-- Key equality on persisted rows: the `(Property, Date)` conflict key. -/
def sameKey (a b : Row) : Bool :=
  a.property == b.property && a.date == b.date

/-- The `(Property, Date)` key of a row. -/
def keyOf (r : Row) : String × Nat :=
  (r.property, r.date)

/-- Pandas left merge of the incoming batch against the pre-write snapshot
on `['Property', 'Date']` (line 123): each incoming row is paired with
every snapshot row at the same key, or with `none` when no snapshot row
matches. -/
def leftMergePrev (processed existing : List Row) : List (Row × Option Row) :=
  processed.flatMap (fun r =>
    match existing.filter (fun e => sameKey e r) with
    | [] => [(r, none)]
    | ms => ms.map (fun e => (r, some e)))

/-- Writing the freshly computed pickup columns into an incoming row
(lines 130-141): `Total Occ_prev` / `Revenue_prev` come from the matched
snapshot row, or are NaN when there was none. -/
def withPickups (r : Row) (prev : Option Row) : Row :=
  { r with
    pickupOcc := some (subFillna r.occ (prev.bind Row.occ))
    pickupRev := some (subFillna r.revenue (prev.bind Row.revenue)) }

/-- The `compare_df` computation of `update_google_sheet` (lines 122-141):
the incoming batch with pickup columns recomputed against the snapshot. -/
def computePickups (processed existing : List Row) : List Row :=
  (leftMergePrev processed existing).map (fun p => withPickups p.1 p.2)

/-- `processed_df[['Property', 'Date']].drop_duplicates()` (line 144). -/
def batchKeys (processed : List Row) : List (String × Nat) :=
  (processed.map keyOf).dedup

/-- The overlap-removal loop of lines 144-145: for each distinct incoming
key, drop every existing row at that key. -/
def removeKeys (existing : List Row) (keys : List (String × Nat)) : List Row :=
  keys.foldl
    (fun acc k => acc.filter (fun e => !(e.property == k.1 && e.date == k.2)))
    existing

/-- The `sort_values(by=["Property", "Date"])` order (line 149). -/
def rowLE (a b : Row) : Bool :=
  a.property < b.property || (a.property == b.property && a.date ≤ b.date)

/-- Ordered insertion used to model the sort of line 149. -/
def insertRow (r : Row) : List Row → List Row
  | [] => [r]
  | x :: xs => if rowLE r x then r :: x :: xs else x :: insertRow r xs

/-- Sorting by `(Property, Date)` ascending (line 149); modelled as an
insertion sort, which rearranges rows without altering any of them. -/
def sortRows : List Row → List Row
  | [] => []
  | r :: rs => insertRow r (sortRows rs)

/-- The whole `update_google_sheet` (lines 87-159), restricted to its effect
on the persisted table: read the snapshot (`existing`), compute pickups for
the batch against it, remove existing rows at any incoming key, append the
batch, sort, and replace the full table contents. -/
def update_google_sheet (processed existing : List Row) : List Row :=
  let written := computePickups processed existing
  let kept := removeKeys existing (batchKeys written)
  sortRows (kept ++ written)

/-- A row list has pairwise-distinct `(Property, Date)` keys. -/
def uniqueKeys (l : List Row) : Prop :=
  (l.map (fun r => (r.property, r.date))).Nodup

instance (l : List Row) : Decidable (uniqueKeys l) := by
  unfold uniqueKeys; infer_instance

/-- Snapshot lookup of the prior persisted row at a key. -/
def findPrior (existing : List Row) (p : String) (d : Nat) : Option Row :=
  existing.find? (fun e => e.property == p && e.date == d)

/-- Whether some row of `processed` carries the same key as `r`. -/
def hasKey (processed : List Row) (r : Row) : Bool :=
  processed.any (fun x => sameKey x r)

/-- Row constructor used by the concrete test tables below: only the key
and the two delta-relevant numeric fields vary. -/
def mkRow (p : String) (d : Nat) (occ rev : Option ℚ) : Row :=
  { property := p, date := d, occ := occ, rate := none, revenue := rev,
    label := "History", monthYear := "Jul-2025",
    pickupOcc := none, pickupRev := none }

/-- A merged per-property report row as fed to `make_table` (line 508):
the column selection `Day, Month, Actual Occ, Budget Occ, Pickup Occ,
Actual Rate, Budget Rate, Actual Revenue, Budget Revenue, Pickup Revenue,
Label` of `pivot_df`. -/
structure MRow where
  day : String
  month : String
  actualOcc : Option ℚ
  budgetOcc : Option ℚ
  pickupOcc : Option ℚ
  actualRate : Option ℚ
  budgetRate : Option ℚ
  actualRev : Option ℚ
  budgetRev : Option ℚ
  pickupRev : Option ℚ
  label : String
deriving DecidableEq, Repr

/-- `safe_sum` of `make_table` (lines 163-164): `series.sum(skipna=True)`
when any value is present, else the plain integer 0. -/
def safe_sum (s : List (Option ℚ)) : ℚ :=
  if s.any Option.isSome then (s.filterMap id).sum else 0

/-- Round-half-to-even at integer precision, as the Python built-in
`round` ties are resolved. -/
def roundHalfEven (x : ℚ) : ℤ :=
  let f := ⌊x⌋
  let r := x - f
  if r < 1/2 then f
  else if 1/2 < r then f + 1
  else if f % 2 = 0 then f else f + 1

/-- `round(x, 2)`: round half to even at two decimal places. -/
def round2 (x : ℚ) : ℚ :=
  (roundHalfEven (100 * x) : ℚ) / 100

/-- `safe_mean` of `make_table` (lines 166-167): the rounded plain mean of
the present values, else 0. -/
def safe_mean (s : List (Option ℚ)) : ℚ :=
  if s.any Option.isSome then
    round2 ((s.filterMap id).sum / ((s.filterMap id).length : ℚ))
  else 0

/-- The unguarded rate division of `make_table` (lines 179, 196, 212):
when the divisor is zero, Python either raises `ZeroDivisionError` (an
empty or all-missing series, where `safe_sum` returns the plain integer 0)
or yields a non-finite float (present values summing to zero); neither
produces a defined rate, so both are modelled as `none`. -/
def rateDiv (num den : ℚ) : Option ℚ :=
  if den = 0 then none else some (num / den)

/-- A synthetic subtotal or total row of `make_table`; `actualRate` is an
`Option` because its division can fault (see `rateDiv`). -/
structure SynthRow where
  day : String
  actualOcc : ℚ
  budgetOcc : ℚ
  pickupOcc : ℚ
  actualRate : Option ℚ
  budgetRate : ℚ
  actualRev : ℚ
  budgetRev : ℚ
  pickupRev : ℚ
  label : String
deriving DecidableEq, Repr

/-- `data[data['Label'] == 'History']` (line 170). -/
def history_data (data : List MRow) : List MRow :=
  data.filter (fun r => r.label == "History")

/-- `data[data['Label'] == 'Forecast']` (line 188). -/
def forecast_data (data : List MRow) : List MRow :=
  data.filter (fun r => r.label == "Forecast")

/-- The `history_row` dictionary of `make_table` (lines 171-185). -/
def history_row (data : List MRow) : SynthRow :=
  let hd := history_data data
  { day := "Subtotal (History)"
    actualOcc := safe_sum (hd.map MRow.actualOcc)
    budgetOcc := safe_sum (hd.map MRow.budgetOcc)
    pickupOcc := safe_sum (hd.map MRow.pickupOcc)
    actualRate := rateDiv (safe_sum (hd.map MRow.actualRev))
      (safe_sum (hd.map MRow.actualOcc))
    budgetRate := safe_mean (hd.map MRow.budgetRate)
    actualRev := safe_sum (hd.map MRow.actualRev)
    budgetRev := safe_sum (hd.map MRow.budgetRev)
    pickupRev := safe_sum (hd.map MRow.pickupRev)
    label := "History" }

/-- The `forecast_row` dictionary of `make_table` (lines 189-202).  Note
that line 196 computes `Actual Rate` from `history_data`, not from
`forecast_data`. -/
def forecast_row (data : List MRow) : SynthRow :=
  let fd := forecast_data data
  let hd := history_data data
  { day := "Subtotal (Forecast)"
    actualOcc := safe_sum (fd.map MRow.actualOcc)
    budgetOcc := safe_sum (fd.map MRow.budgetOcc)
    pickupOcc := safe_sum (fd.map MRow.pickupOcc)
    actualRate := rateDiv (safe_sum (hd.map MRow.actualRev))
      (safe_sum (hd.map MRow.actualOcc))
    budgetRate := safe_mean (fd.map MRow.budgetRate)
    actualRev := safe_sum (fd.map MRow.actualRev)
    budgetRev := safe_sum (fd.map MRow.budgetRev)
    pickupRev := safe_sum (fd.map MRow.pickupRev)
    label := "Forecast" }

/-- The `total_row` dictionary of `make_table` (lines 205-218).  Note that
line 212 computes `Actual Rate` from `history_data`, not from all rows. -/
def total_row (data : List MRow) : SynthRow :=
  let hd := history_data data
  { day := "Total"
    actualOcc := safe_sum (data.map MRow.actualOcc)
    budgetOcc := safe_sum (data.map MRow.budgetOcc)
    pickupOcc := safe_sum (data.map MRow.pickupOcc)
    actualRate := rateDiv (safe_sum (hd.map MRow.actualRev))
      (safe_sum (hd.map MRow.actualOcc))
    budgetRate := safe_mean (data.map MRow.budgetRate)
    actualRev := safe_sum (data.map MRow.actualRev)
    budgetRev := safe_sum (data.map MRow.budgetRev)
    pickupRev := safe_sum (data.map MRow.pickupRev)
    label := "" }

/-- Merged-row constructor for concrete presenter checks: the label, the
Actual occupancy and revenue, and the Budget occupancy, per-row rate and
revenue vary; the remaining fields are fixed. -/
def mkMRow (label : String) (aOcc aRev bOcc bRate bRev : Option ℚ) : MRow :=
  { day := "01-Jul", month := "July", actualOcc := aOcc, budgetOcc := bOcc,
    pickupOcc := some 0, actualRate := none, budgetRate := bRate,
    actualRev := aRev, budgetRev := bRev, pickupRev := some 0, label := label }

/-- The weighted-rate example of the spec, with one Forecast row added:
History rows (occupancy 100, revenue 10000) and (occupancy 50, revenue
6000), Forecast row (occupancy 10, revenue 2000); Budget sides carry the
same occupancies and revenues with per-row rates 100, 200 and 300. -/
def mergedEx : List MRow :=
  [mkMRow "History" (some 100) (some 10000) (some 100) (some 100) (some 10000),
    mkMRow "History" (some 50) (some 6000) (some 50) (some 200) (some 6000),
    mkMRow "Forecast" (some 10) (some 2000) (some 10) (some 300) (some 2000)]

/-- A merged row set whose History partition is empty. -/
def mergedAllForecast : List MRow :=
  [mkMRow "Forecast" (some 10) (some 2000) (some 10) (some 300) (some 2000)]

/-- A row of one persisted sheet as read and column-standardized by
`update_tabs` (lines 391-424): the date is still raw text, numeric columns
have been coerced (`none` = NaN), and the label may be missing. -/
structure SRow where
  property : String
  date : String
  occ : Option ℚ
  rate : Option ℚ
  revenue : Option ℚ
  label : Option String
  pickupOcc : Option ℚ
  pickupRev : Option ℚ
deriving DecidableEq, Repr

/-- A cleaned side row: the date has parsed. -/
structure CRow where
  property : String
  date : Nat
  occ : Option ℚ
  rate : Option ℚ
  revenue : Option ℚ
  label : Option String
  pickupOcc : Option ℚ
  pickupRev : Option ℚ
deriving DecidableEq, Repr

/-- Per-side date parsing and cleaning (lines 409-429): each side is run
through its own `pd.to_datetime` format (the parser is the external
collaborator, passed as a function), and `dropna(subset=['Date'])` then
drops exactly the rows whose date failed to parse. -/
def cleanSide (parse : String → Option Nat) (rows : List SRow) : List CRow :=
  rows.filterMap (fun r =>
    (parse r.date).map (fun d =>
      { property := r.property, date := d, occ := r.occ, rate := r.rate,
        revenue := r.revenue, label := r.label,
        pickupOcc := r.pickupOcc, pickupRev := r.pickupRev }))

/-- Key equality on cleaned side rows. -/
def sameKeyC (a b : CRow) : Bool :=
  a.property == b.property && a.date == b.date

/-- The `(Property, Date)` key of a cleaned side row. -/
def keyC (r : CRow) : String × Nat :=
  (r.property, r.date)

/-- A joined report row after the renames of lines 461-474. -/
structure JRow where
  property : String
  date : Nat
  actualOcc : Option ℚ
  budgetOcc : Option ℚ
  actualRate : Option ℚ
  budgetRate : Option ℚ
  actualRev : Option ℚ
  budgetRev : Option ℚ
  pickupOcc : Option ℚ
  pickupRev : Option ℚ
  label : Option String
deriving DecidableEq, Repr

/-- The `(Property, Date)` key of a joined row. -/
def keyJ (j : JRow) : String × Nat :=
  (j.property, j.date)

/-- A key matched on both sides: Actual columns from `x`, Budget columns
from `y`; the label prefers the Actual side and falls back to Budget
(line 474). -/
def mkBoth (x y : CRow) : JRow :=
  { property := x.property, date := x.date,
    actualOcc := x.occ, budgetOcc := y.occ,
    actualRate := x.rate, budgetRate := y.rate,
    actualRev := x.revenue, budgetRev := y.revenue,
    pickupOcc := x.pickupOcc, pickupRev := x.pickupRev,
    label := x.label.orElse (fun _ => y.label) }

/-- A key present only on the Actual side: Budget columns are null. -/
def mkActualOnly (x : CRow) : JRow :=
  { property := x.property, date := x.date,
    actualOcc := x.occ, budgetOcc := none,
    actualRate := x.rate, budgetRate := none,
    actualRev := x.revenue, budgetRev := none,
    pickupOcc := x.pickupOcc, pickupRev := x.pickupRev,
    label := x.label }

/-- A key present only on the Budget side: Actual columns are null, and
the null Actual label is filled from the Budget label (line 474). -/
def mkBudgetOnly (y : CRow) : JRow :=
  { property := y.property, date := y.date,
    actualOcc := none, budgetOcc := y.occ,
    actualRate := none, budgetRate := y.rate,
    actualRev := none, budgetRev := y.revenue,
    pickupOcc := none, pickupRev := none,
    label := y.label }

/-- `pd.merge(actual_df_clean, budget_df_clean, on=['Property', 'Date'],
how='outer')` (lines 441-447): every Actual row paired with each matching
Budget row (or alone when unmatched), followed by the unmatched Budget
rows. -/
def outerMerge (a b : List CRow) : List JRow :=
  (a.flatMap (fun x =>
    match b.filter (fun y => sameKeyC x y) with
    | [] => [mkActualOnly x]
    | ms => ms.map (fun y => mkBoth x y)))
    ++ (b.filter (fun y => !(a.any (fun x => sameKeyC x y)))).map mkBudgetOnly

/-- The `sort_values(by=['Property', 'Date'])` order of line 494. -/
def jLE (p q : JRow) : Bool :=
  p.property < q.property || (p.property == q.property && p.date ≤ q.date)

/-- Ordered insertion on joined rows. -/
def insertJ (r : JRow) : List JRow → List JRow
  | [] => [r]
  | x :: xs => if jLE r x then r :: x :: xs else x :: insertJ r xs

/-- Sorting the joined rows (line 494), modelled as insertion sort. -/
def sortJ : List JRow → List JRow
  | [] => []
  | r :: rs => insertJ r (sortJ rs)

/-- The distinguishable outcomes of the merge phase of `update_tabs`:
each non-table constructor is one of the explanatory user-visible
messages returned at lines 436, 438, 454 and 499. -/
inductive TabsView where
  | noActualData
  | noBudgetData
  | emptyMerge
  | noActualOcc
  | table (rows : List JRow)
deriving DecidableEq, Repr

/-- The merge phase of `update_tabs` (lines 391-499): clean each side with
its own date parser, surface an explanatory result when a side is empty
after cleaning, outer-join on `(Property, Date)`, keep only rows whose
Actual occupancy is non-null, and sort.  `actual` is the month-filtered
Actual sheet, `budget` the Budget sheet, both column-standardized. -/
def update_tabs_core (parseActual parseBudget : String → Option Nat)
    (actual budget : List SRow) : TabsView :=
  let a := cleanSide parseActual actual
  let b := cleanSide parseBudget budget
  if a.isEmpty then .noActualData
  else if b.isEmpty then .noBudgetData
  else
    let m := outerMerge a b
    if m.isEmpty then .emptyMerge
    else
      let p := sortJ (m.filter (fun j => j.actualOcc.isSome))
      if p.isEmpty then .noActualOcc
      else .table p

/-- Actual-sheet sample for the merge checks: one actualized day. -/
def sActual : List SRow :=
  [{ property := "A", date := "1", occ := some 100, rate := some 105,
      revenue := some 10500, label := some "History",
      pickupOcc := some 0, pickupRev := some 0 }]

/-- Budget-sheet sample: day 1 matching `sActual`, day 2 budget-only. -/
def sBudget : List SRow :=
  [{ property := "A", date := "1", occ := some 90, rate := some 100,
      revenue := some 9000, label := some "History",
      pickupOcc := none, pickupRev := none },
    { property := "A", date := "2", occ := some 95, rate := some 100,
      revenue := some 9500, label := some "History",
      pickupOcc := none, pickupRev := none }]

/-- A sheet row whose date text does not parse numerically. -/
def sBad : SRow :=
  { property := "A", date := "x", occ := some 1, rate := none,
    revenue := none, label := none, pickupOcc := none, pickupRev := none }

/-- A concrete single-digit date parser standing in for the per-side
`pd.to_datetime` format of the external collaborator in witnesses. -/
def parseDigit (s : String) : Option Nat :=
  if s == "1" then some 1 else if s == "2" then some 2 else none

/-- The cleaned row of `sActual` under the digit date parser. -/
def cActual1 : CRow :=
  { property := "A", date := 1, occ := some 100, rate := some 105,
    revenue := some 10500, label := some "History",
    pickupOcc := some 0, pickupRev := some 0 }

/-- The first cleaned row of `sBudget`. -/
def cBudget1 : CRow :=
  { property := "A", date := 1, occ := some 90, rate := some 100,
    revenue := some 9000, label := some "History",
    pickupOcc := none, pickupRev := none }

/-- The second (budget-only) cleaned row of `sBudget`. -/
def cBudget2 : CRow :=
  { property := "A", date := 2, occ := some 95, rate := some 100,
    revenue := some 9500, label := some "History",
    pickupOcc := none, pickupRev := none }

/-- The distinguishable outcomes of the upload callback `handle_upload`
(lines 300-317): the error message naming the failing file (line 309), the
no-valid-data warning (line 312), or the success summary (line 316),
which reports the written row count and distinct property count. -/
inductive UploadView where
  | noFiles
  | errorFile (name msg : String)
  | noValidData
  | updated (rowCount propCount : Nat)
deriving DecidableEq, Repr

/-- The batch loop of `handle_upload` (lines 302-309): process files in
order, collect the non-empty normalized frames, and stop at the first
normalization failure, reporting the failing file name and message. -/
def uploadLoop (pf : String → String → Except String (List Row)) :
    List (String × String) → List (List Row) →
      Except (String × String) (List (List Row))
  | [], acc => .ok acc
  | (c, n) :: rest, acc =>
      match pf c n with
      | .error e => .error (n, e)
      | .ok df => uploadLoop pf rest (if df.isEmpty then acc else acc ++ [df])

/-- The delta policy the code actually implements, stated in the words of
the amended claim C1: the persisted pickup is new − prior when both the
incoming and the prior value are present, and 0 when either value is
missing or no prior row exists. -/
def pickupOf (newV prior : Option ℚ) : ℚ :=
  match newV, prior with
  | some n, some p => n - p
  | _, _ => 0

/-- A two-row batch with pairwise-distinct keys, for concrete checks. -/
def batch2 : List Row :=
  [mkRow "A" 1 (some 135) (some 2000), mkRow "A" 2 (some 10) (some 100)]

/-- A one-row persisted table matching the first key of `batch2`. -/
def ex2 : List Row :=
  [mkRow "A" 1 (some 120) (some 1500)]

/-- A batch carrying two rows at the same `(Property, Date)` key. -/
def dupBatch : List Row :=
  [mkRow "A" 1 (some 5) (some 50), mkRow "A" 1 (some 7) (some 70)]

/-- The row the second submission of `batch2` writes for its second key:
identical values, pickups zero. -/
def secondRow : Row :=
  { property := "A", date := 2, occ := some 10, rate := none,
    revenue := some 100, label := "History", monthYear := "Jul-2025",
    pickupOcc := some 0, pickupRev := some 0 }

/-- The three-day persisted table of the per-day key-scope example. -/
def ex3 : List Row :=
  [mkRow "A" 1 (some 100) (some 1000), mkRow "A" 2 (some 100) (some 1000),
    mkRow "A" 3 (some 100) (some 1000)]

/-- A batch resubmitting only the second day of `ex3`. -/
def batch3 : List Row :=
  [mkRow "A" 2 (some 135) (some 1500)]

/-- The row the second submission of `dupBatch` writes by pairing its
occupancy-5 row with the previously written occupancy-7 duplicate. -/
def offendingRow : Row :=
  { property := "A", date := 1, occ := some 5, rate := none,
    revenue := some 50, label := "History", monthYear := "Jul-2025",
    pickupOcc := some (-2), pickupRev := some (-20) }

/-- A concrete normalizer for the upload checks: fails on the file named
bad.xlsx, and produces one fixed canonical row otherwise. -/
def pfToy : String → String → Except String (List Row) :=
  fun _ n =>
    if n == "bad.xlsx" then Except.error "boom"
    else Except.ok [mkRow "A" 1 (some 1) (some 10)]

/-- The Budget row matched by an Actual row in the outer join, when the
Budget keys are unique. -/
def findMatch (b : List CRow) (x : CRow) : Option CRow :=
  b.find? (fun y => sameKeyC x y)

/-- The single joined row an Actual row produces when the Budget keys are
unique: matched keys carry both sides, unmatched keys only Actual. -/
def joinRow (b : List CRow) (x : CRow) : JRow :=
  match findMatch b x with
  | none => mkActualOnly x
  | some y => mkBoth x y

/-- A cleaned side has pairwise-distinct `(Property, Date)` keys. -/
def uniqueKeysC (l : List CRow) : Prop :=
  (l.map keyC).Nodup

instance (l : List CRow) : Decidable (uniqueKeysC l) := by
  unfold uniqueKeysC; infer_instance

/-- `handle_upload` (lines 300-317): `pf` is the normalizer
(`process_file`), `files` the `(contents, filename)` pairs, and `table`
the persisted Actual table the upsert would write to.  Returns the
user-visible outcome and the resulting persisted table. -/
def handle_upload (pf : String → String → Except String (List Row))
    (files : List (String × String)) (table : List Row) :
    UploadView × List Row :=
  if files.isEmpty then (.noFiles, table)
  else
    match uploadLoop pf files [] with
    | .error (n, e) => (.errorFile n e, table)
    | .ok [] => (.noValidData, table)
    | .ok dfs =>
        let finalDf := dfs.flatten
        (.updated finalDf.length ((finalDf.map Row.property).dedup.length),
          update_google_sheet finalDf table)

@[simp]
lemma withPickups_property (r : Row) (prev : Option Row) :
    (withPickups r prev).property = r.property := rfl

@[simp]
lemma withPickups_date (r : Row) (prev : Option Row) :
    (withPickups r prev).date = r.date := rfl

@[simp]
lemma withPickups_occ (r : Row) (prev : Option Row) :
    (withPickups r prev).occ = r.occ := rfl

@[simp]
lemma withPickups_revenue (r : Row) (prev : Option Row) :
    (withPickups r prev).revenue = r.revenue := rfl

@[simp]
lemma withPickups_keyOf (r : Row) (prev : Option Row) :
    keyOf (withPickups r prev) = keyOf r := rfl

lemma sameKey_iff (a b : Row) : sameKey a b = true ↔ keyOf a = keyOf b := by
  simp [sameKey, keyOf, Prod.ext_iff]

lemma removeKeys_eq_filter (ks : List (String × Nat)) (ex : List Row) :
    removeKeys ex ks
      = ex.filter (fun e => !(ks.any (fun k => e.property == k.1 && e.date == k.2))) := by
  induction ks generalizing ex with
  | nil => simp [removeKeys]
  | cons k ks ih =>
      show removeKeys (ex.filter _) ks = _
      rw [ih, List.filter_filter]
      refine List.filter_congr (fun e _ => ?_)
      simp only [List.any_cons, Bool.not_or, Bool.and_comm]

lemma mem_removeKeys {ex : List Row} {ks : List (String × Nat)} {r : Row} :
    r ∈ removeKeys ex ks ↔ r ∈ ex ∧ ∀ k ∈ ks, ¬(r.property = k.1 ∧ r.date = k.2) := by
  rw [removeKeys_eq_filter]
  simp [List.mem_filter, not_and]

lemma pair_mem_leftMergePrev {processed existing : List Row} {x : Row} {prev : Option Row}
    (h : (x, prev) ∈ leftMergePrev processed existing) :
    x ∈ processed ∧
      ((prev = none ∧ ∀ e ∈ existing, ¬sameKey e x = true) ∨
        ∃ e, prev = some e ∧ e ∈ existing ∧ sameKey e x = true) := by
  rcases List.mem_flatMap.mp h with ⟨a, ha, hpair⟩
  cases hms : existing.filter (fun e => sameKey e a) with
  | nil =>
      rw [hms] at hpair
      simp only [List.mem_singleton, Prod.mk.injEq] at hpair
      obtain ⟨rfl, rfl⟩ := hpair
      exact ⟨ha, Or.inl ⟨rfl, by
        intro e he
        have := List.filter_eq_nil_iff.mp hms e he
        simpa using this⟩⟩
  | cons m ms =>
      rw [hms] at hpair
      simp only [List.mem_map, Prod.mk.injEq] at hpair
      obtain ⟨e, he, rfl, rfl⟩ := hpair
      have he' : e ∈ existing.filter (fun e => sameKey e a) := hms ▸ he
      rcases List.mem_filter.mp he' with ⟨hmem, hkey⟩
      exact ⟨ha, Or.inr ⟨e, rfl, hmem, hkey⟩⟩

lemma leftMergePrev_fst_mem {processed existing : List Row} {q : Row × Option Row}
    (h : q ∈ leftMergePrev processed existing) : q.1 ∈ processed := by
  obtain ⟨x, prev⟩ := q
  exact (pair_mem_leftMergePrev h).1

lemma mem_computePickups {processed existing : List Row} {r : Row}
    (h : r ∈ computePickups processed existing) :
    ∃ x prev, (x, prev) ∈ leftMergePrev processed existing ∧ r = withPickups x prev := by
  rcases List.mem_map.mp h with ⟨⟨x, prev⟩, hq, rfl⟩
  exact ⟨x, prev, hq, rfl⟩

lemma keyOf_mem_computePickups {processed existing : List Row} {k : String × Nat} :
    k ∈ (computePickups processed existing).map keyOf ↔ k ∈ processed.map keyOf := by
  constructor
  · intro hk
    rcases List.mem_map.mp hk with ⟨r, hr, rfl⟩
    rcases mem_computePickups hr with ⟨x, prev, hq, rfl⟩
    exact List.mem_map.mpr ⟨x, (pair_mem_leftMergePrev hq).1, rfl⟩
  · intro hk
    rcases List.mem_map.mp hk with ⟨x, hx, rfl⟩
    have : ∃ prev, (x, prev) ∈ leftMergePrev processed existing := by
      unfold leftMergePrev
      cases hms : existing.filter (fun e => sameKey e x) with
      | nil =>
          exact ⟨none, List.mem_flatMap.mpr ⟨x, hx, by rw [hms]; simp⟩⟩
      | cons m ms =>
          exact ⟨some m, List.mem_flatMap.mpr ⟨x, hx, by rw [hms]; simp⟩⟩
    rcases this with ⟨prev, hq⟩
    exact List.mem_map.mpr ⟨withPickups x prev,
      List.mem_map.mpr ⟨(x, prev), hq, rfl⟩, rfl⟩

lemma filter_sameKey_of_uniqueKeys {existing : List Row} (h : uniqueKeys existing) (r : Row) :
    existing.filter (fun e => sameKey e r)
      = (findPrior existing r.property r.date).toList := by
  induction existing with
  | nil => simp [findPrior]
  | cons e ex ih =>
      have hnd := h
      unfold uniqueKeys at hnd
      simp only [List.map_cons, List.nodup_cons] at hnd
      obtain ⟨hke, hnd'⟩ := hnd
      have ih' := ih hnd'
      by_cases hk : sameKey e r = true
      · have hfind : findPrior (e :: ex) r.property r.date = some e := by
          unfold findPrior
          rw [List.find?_cons_of_pos]
          simpa [sameKey] using hk
        rw [hfind]
        have hrest : ex.filter (fun e' => sameKey e' r) = [] := by
          refine List.filter_eq_nil_iff.mpr (fun e' he' => ?_)
          intro hk'
          apply hke
          have h1 := (sameKey_iff e r).mp hk
          have h2 := (sameKey_iff e' r).mp hk'
          exact List.mem_map.mpr ⟨e', he', h2.trans h1.symm⟩
        simp [List.filter_cons, hk, hrest, Option.toList]
      · have hfind : findPrior (e :: ex) r.property r.date
            = findPrior ex r.property r.date := by
          unfold findPrior
          rw [List.find?_cons_of_neg]
          simpa [sameKey] using hk
        rw [hfind, ← ih']
        simp [List.filter_cons, hk]

lemma computePickups_of_uniqueKeys {processed existing : List Row}
    (h : uniqueKeys existing) :
    computePickups processed existing
      = processed.map (fun r => withPickups r (findPrior existing r.property r.date)) := by
  unfold computePickups leftMergePrev
  induction processed with
  | nil => simp
  | cons r p ih =>
      rw [List.flatMap_cons, List.map_append, ih]
      rw [filter_sameKey_of_uniqueKeys h r]
      cases hfp : findPrior existing r.property r.date with
      | none => simp [hfp, Option.toList]
      | some e => simp [hfp, Option.toList]

lemma insertRow_perm (r : Row) (l : List Row) : (insertRow r l).Perm (r :: l) := by
  induction l with
  | nil => simp [insertRow]
  | cons x xs ih =>
      unfold insertRow
      by_cases h : rowLE r x = true
      · simp [h]
      · simp only [h, if_neg]
        exact (ih.cons x).trans (List.Perm.swap r x xs)

lemma sortRows_perm (l : List Row) : (sortRows l).Perm l := by
  induction l with
  | nil => simp [sortRows]
  | cons r rs ih =>
      exact (insertRow_perm r (sortRows rs)).trans (ih.cons r)

lemma update_perm (processed existing : List Row) :
    (update_google_sheet processed existing).Perm
      (removeKeys existing (batchKeys (computePickups processed existing))
        ++ computePickups processed existing) := by
  unfold update_google_sheet
  exact sortRows_perm _

lemma mem_update {processed existing : List Row} {r : Row} :
    r ∈ update_google_sheet processed existing ↔
      r ∈ removeKeys existing (batchKeys (computePickups processed existing))
        ∨ r ∈ computePickups processed existing := by
  rw [(update_perm processed existing).mem_iff, List.mem_append]

@[simp]
lemma subFillna_none_right (a : Option ℚ) : subFillna a none = 0 := by
  cases a <;> rfl

@[simp]
lemma subFillna_self (a : Option ℚ) : subFillna a a = 0 := by
  cases a with
  | none => rfl
  | some v => simp [subFillna]

lemma keyOf_mem_batchKeys {l : List Row} {k : String × Nat} :
    k ∈ batchKeys l ↔ ∃ r ∈ l, keyOf r = k := by
  unfold batchKeys
  rw [List.mem_dedup, List.mem_map]

lemma key_match_iff (r : Row) (k : String × Nat) :
    (r.property = k.1 ∧ r.date = k.2) ↔ keyOf r = k := by
  unfold keyOf
  constructor
  · rintro ⟨h1, h2⟩; exact Prod.ext h1 h2
  · intro h; exact ⟨congrArg Prod.fst h, congrArg Prod.snd h⟩

lemma hasKey_iff {l : List Row} {r : Row} :
    hasKey l r = true ↔ ∃ x ∈ l, keyOf x = keyOf r := by
  unfold hasKey
  rw [List.any_eq_true]
  constructor
  · rintro ⟨x, hx, hk⟩; exact ⟨x, hx, (sameKey_iff x r).mp hk⟩
  · rintro ⟨x, hx, hk⟩; exact ⟨x, hx, (sameKey_iff x r).mpr hk⟩

lemma filter_key_self {l : List Row} (h : uniqueKeys l) {x : Row} (hx : x ∈ l) :
    l.filter (fun y => sameKey x y) = [x] := by
  induction l with
  | nil => cases hx
  | cons e ex ih =>
      have hnd := h
      unfold uniqueKeys at hnd
      simp only [List.map_cons, List.nodup_cons] at hnd
      obtain ⟨hke, hnd'⟩ := hnd
      rcases List.mem_cons.mp hx with rfl | hx'
      · have hself : sameKey x x = true := (sameKey_iff x x).mpr rfl
        have hrest : ex.filter (fun y => sameKey x y) = [] := by
          refine List.filter_eq_nil_iff.mpr (fun y hy => ?_)
          intro hk
          exact hke (List.mem_map.mpr ⟨y, hy, ((sameKey_iff x y).mp hk).symm⟩)
        simp [List.filter_cons, hself, hrest]
      · have hne : sameKey x e = false := by
          rcases Bool.eq_false_or_eq_true (sameKey x e) with ht | hf
          · exact absurd (List.mem_map.mpr ⟨x, hx', (sameKey_iff x e).mp ht⟩) hke
          · exact hf
        simp [List.filter_cons, hne, ih hnd' hx']

lemma hasKey_withPickups {l : List Row} (x : Row) (prev : Option Row)
    (hx : x ∈ l) : hasKey l (withPickups x prev) = true :=
  hasKey_iff.mpr ⟨x, hx, by simp⟩

lemma hasKey_of_mem_computePickups {processed existing : List Row} {w : Row}
    (hw : w ∈ computePickups processed existing) : hasKey processed w = true := by
  rcases mem_computePickups hw with ⟨x, prev, hq, rfl⟩
  exact hasKey_withPickups x prev (pair_mem_leftMergePrev hq).1

lemma batchKeys_computePickups {processed existing : List Row}
    {k : String × Nat} :
    k ∈ batchKeys (computePickups processed existing) ↔ k ∈ batchKeys processed := by
  rw [keyOf_mem_batchKeys, keyOf_mem_batchKeys]
  constructor
  · rintro ⟨r, hr, rfl⟩
    rcases List.mem_map.mp (keyOf_mem_computePickups.mp
      (List.mem_map.mpr ⟨r, hr, rfl⟩)) with ⟨x, hx, hk⟩
    exact ⟨x, hx, hk⟩
  · rintro ⟨r, hr, rfl⟩
    rcases List.mem_map.mp (keyOf_mem_computePickups.mpr
      (List.mem_map.mpr ⟨r, hr, rfl⟩)) with ⟨w, hw, hk⟩
    exact ⟨w, hw, hk⟩

lemma mem_kept_iff {processed existing : List Row} {r : Row} :
    r ∈ removeKeys existing (batchKeys (computePickups processed existing)) ↔
      r ∈ existing ∧ hasKey processed r = false := by
  rw [mem_removeKeys]
  constructor
  · rintro ⟨hmem, hall⟩
    refine ⟨hmem, ?_⟩
    rcases Bool.eq_false_or_eq_true (hasKey processed r) with ht | hf
    case inr => exact hf
    · rcases hasKey_iff.mp ht with ⟨x, hx, hk⟩
      exact absurd (key_match_iff r (keyOf r)).mpr
        (by
          intro hmatch
          exact hall (keyOf r)
            (batchKeys_computePickups.mpr
              (keyOf_mem_batchKeys.mpr ⟨x, hx, hk⟩)) (hmatch rfl))
  · rintro ⟨hmem, hfalse⟩
    refine ⟨hmem, fun k hk hmatch => ?_⟩
    rcases keyOf_mem_batchKeys.mp (batchKeys_computePickups.mp hk) with ⟨x, hx, hkx⟩
    have : hasKey processed r = true :=
      hasKey_iff.mpr ⟨x, hx, hkx.trans ((key_match_iff r k).mp hmatch).symm⟩
    rw [this] at hfalse
    cases hfalse

/-- C1 (counterexample): the claim predicts that a prior occupancy of 120
with a missing incoming occupancy yields a persisted pickup of −120
(missing treated as arithmetic zero); the code instead persists 0,
because `(new - prev).fillna(0)` lets the NaN of the subtraction be
replaced by 0. -/
theorem pickup_missing_value_counterexample :
    (update_google_sheet [mkRow "A" 1 none (some 1500)]
        [mkRow "A" 1 (some 120) (some 1000)]).map Row.pickupOcc = [some 0] ∧
      some (0 : ℚ) ≠ some (-120 : ℚ) := by
  constructor
  · norm_num [update_google_sheet, computePickups, leftMergePrev, withPickups,
      subFillna, mkRow, batchKeys, keyOf, removeKeys, sortRows, insertRow,
      rowLE, sameKey]
  · norm_num

/-- C1 (amended): for every row of an incoming batch, the persisted table
after the upsert contains a row at that key, carrying the incoming values,
whose pickups are computed against the prior row found in the snapshot
read before any of the writes of this batch: new − prior when both values
are present, and 0 when either value is missing or no prior row existed. -/
theorem pickup_delta_from_snapshot (processed existing : List Row)
    (hE : uniqueKeys existing) (r : Row) (hr : r ∈ processed) :
    ∃ w ∈ update_google_sheet processed existing,
      keyOf w = keyOf r ∧ w.occ = r.occ ∧ w.revenue = r.revenue ∧
      w.pickupOcc = some (pickupOf r.occ
        ((findPrior existing r.property r.date).bind Row.occ)) ∧
      w.pickupRev = some (pickupOf r.revenue
        ((findPrior existing r.property r.date).bind Row.revenue)) := by
  refine ⟨withPickups r (findPrior existing r.property r.date), ?_, by simp, by simp,
    by simp, rfl, rfl⟩
  refine mem_update.mpr (Or.inr ?_)
  rw [computePickups_of_uniqueKeys hE]
  exact List.mem_map.mpr ⟨r, hr, rfl⟩

/-- Witness for C1 at a concrete input: prior occupancy 120, new 135 gives
pickup 15; prior revenue 1500, new 2000 gives pickup 500. -/
theorem pickup_delta_from_snapshot_witness :
    ∃ w ∈ update_google_sheet batch2 ex2,
      keyOf w = ("A", 1) ∧ w.occ = some 135 ∧ w.revenue = some 2000 ∧
      w.pickupOcc = some 15 ∧ w.pickupRev = some 500 := by
  obtain ⟨w, hw, hk, ho, hv, hpo, hpr⟩ :=
    pickup_delta_from_snapshot batch2 ex2 (by decide)
      (mkRow "A" 1 (some 135) (some 2000)) (by decide)
  refine ⟨w, hw, by simpa [mkRow, keyOf] using hk, by simpa [mkRow] using ho,
    by simpa [mkRow] using hv,
    by rw [hpo]; norm_num [pickupOf, findPrior, ex2, mkRow],
    by rw [hpr]; norm_num [pickupOf, findPrior, ex2, mkRow]⟩

/-- C2 (counterexample): with a batch holding two rows at the same key
(occupancies 5 and 7), resubmitting the identical batch does not give
pickup 0 on every written row: the row built from occupancy 5 against the
previously written occupancy 7 carries pickup −2. -/
theorem resubmission_counterexample :
    ¬ (∀ r ∈ update_google_sheet dupBatch (update_google_sheet dupBatch []),
        hasKey dupBatch r = true →
          r.pickupOcc = some 0 ∧ r.pickupRev = some 0) := by
  intro h
  have hmem : offendingRow ∈
      update_google_sheet dupBatch (update_google_sheet dupBatch []) := by
    norm_num [update_google_sheet, computePickups, leftMergePrev, withPickups,
      subFillna, mkRow, dupBatch, offendingRow, batchKeys, keyOf, removeKeys,
      sortRows, insertRow, rowLE, sameKey]
  have hkey : hasKey dupBatch offendingRow = true := by
    norm_num [hasKey, sameKey, dupBatch, mkRow, offendingRow]
  rcases h offendingRow hmem hkey with ⟨h1, -⟩
  norm_num [offendingRow] at h1

/-- C2 (amended): for a batch whose `(Property, Date)` keys are pairwise
distinct, submitting the same batch a second time, on the table state the
first submission produced, persists pickup 0 (occupancy and revenue) on
every row written by the second submission. -/
theorem resubmission_pickup_zero (processed existing : List Row)
    (hP : uniqueKeys processed) :
    ∀ r ∈ update_google_sheet processed (update_google_sheet processed existing),
      hasKey processed r = true → r.pickupOcc = some 0 ∧ r.pickupRev = some 0 := by
  intro r hr hk
  rcases mem_update.mp hr with hkept | hwritten
  · rcases mem_kept_iff.mp hkept with ⟨_, hfalse⟩
    rw [hk] at hfalse
    cases hfalse
  · rcases mem_computePickups hwritten with ⟨x, prev, hq, rfl⟩
    rcases pair_mem_leftMergePrev hq with ⟨hx, hnone | ⟨e, rfl, he, hkey⟩⟩
    · obtain ⟨rfl, -⟩ := hnone
      constructor <;> simp [withPickups]
    · have hocc : e.occ = x.occ ∧ e.revenue = x.revenue := by
        rcases mem_update.mp he with hekept | hewritten
        · rcases mem_kept_iff.mp hekept with ⟨-, hefalse⟩
          have : hasKey processed e = true :=
            hasKey_iff.mpr ⟨x, hx, ((sameKey_iff e x).mp hkey).symm⟩
          rw [this] at hefalse
          cases hefalse
        · rcases mem_computePickups hewritten with ⟨y, prev2, hq2, rfl⟩
          have hy : y ∈ processed := (pair_mem_leftMergePrev hq2).1
          have hkeyxy : keyOf y = keyOf x := by
            have h1 := (sameKey_iff (withPickups y prev2) x).mp hkey
            simpa using h1
          have hyx : y = x := List.inj_on_of_nodup_map hP hy hx hkeyxy
          subst hyx
          simp
      constructor
      · simp [withPickups, hocc.1]
      · simp [withPickups, hocc.2]

/-- Witness for C2 at a concrete input: a distinct-key batch resubmitted
over the table its first submission produced writes `secondRow`, whose
pickups the idempotency theorem forces to zero. -/
theorem resubmission_pickup_zero_witness :
    secondRow.pickupOcc = some 0 ∧ secondRow.pickupRev = some 0 := by
  have hmem : secondRow ∈
      update_google_sheet batch2 (update_google_sheet batch2 ex2) := by
    norm_num [update_google_sheet, computePickups, leftMergePrev, withPickups,
      subFillna, mkRow, batch2, ex2, secondRow, batchKeys, keyOf, removeKeys,
      sortRows, insertRow, rowLE, sameKey]
  have hkey : hasKey batch2 secondRow = true := by
    norm_num [hasKey, sameKey, batch2, mkRow, secondRow]
  exact resubmission_pickup_zero batch2 ex2 (by decide) secondRow hmem hkey

lemma any_batchKeys_eq_hasKey (processed existing : List Row) (e : Row) :
    ((batchKeys (computePickups processed existing)).any
      (fun k => e.property == k.1 && e.date == k.2)) = hasKey processed e := by
  rcases Bool.eq_false_or_eq_true (hasKey processed e) with ht | hf
  · rw [ht]
    rcases hasKey_iff.mp ht with ⟨x, hx, hk⟩
    refine List.any_eq_true.mpr ⟨keyOf e, ?_, ?_⟩
    · exact batchKeys_computePickups.mpr (keyOf_mem_batchKeys.mpr ⟨x, hx, hk⟩)
    · simp [keyOf]
  · rw [hf]
    refine List.any_eq_false.mpr (fun k hk => ?_)
    intro hmatch
    rcases keyOf_mem_batchKeys.mp (batchKeys_computePickups.mp hk) with ⟨x, hx, hkx⟩
    have hkey : keyOf e = k := (key_match_iff e k).mp (by simpa using hmatch)
    have htrue : hasKey processed e = true :=
      hasKey_iff.mpr ⟨x, hx, hkx.trans hkey.symm⟩
    rw [htrue] at hf
    exact Bool.noConfusion hf

/-- C3: the upsert replaces only the keys present in the incoming batch.
As a multiset, the rows of the updated table whose key does not occur in
the batch are exactly the prior persisted rows at those keys, each with
all fields unchanged; and the rows at each batch key are exactly the
singleton batch row at that key, carrying freshly computed pickups. -/
theorem upsert_key_scope (processed existing : List Row)
    (hP : uniqueKeys processed) (hE : uniqueKeys existing) :
    ((update_google_sheet processed existing).filter
        (fun r => !(hasKey processed r))).Perm
      (existing.filter (fun r => !(hasKey processed r)))
    ∧ ∀ x ∈ processed,
        (update_google_sheet processed existing).filter (fun r => sameKey x r)
          = [withPickups x (findPrior existing x.property x.date)] := by
  constructor
  · have hperm := (update_perm processed existing).filter
      (fun r => !(hasKey processed r))
    rw [List.filter_append] at hperm
    have h2 : (computePickups processed existing).filter
        (fun r => !(hasKey processed r)) = [] := by
      refine List.filter_eq_nil_iff.mpr (fun w hw => ?_)
      rw [hasKey_of_mem_computePickups hw]
      simp
    have hkept : (removeKeys existing
          (batchKeys (computePickups processed existing))).filter
        (fun r => !(hasKey processed r))
          = existing.filter (fun r => !(hasKey processed r)) := by
      rw [removeKeys_eq_filter, List.filter_filter]
      refine List.filter_congr (fun e he => ?_)
      rw [any_batchKeys_eq_hasKey, Bool.and_self]
    rw [h2, List.append_nil, hkept] at hperm
    exact hperm
  · intro x hx
    have hperm := (update_perm processed existing).filter (fun r => sameKey x r)
    rw [List.filter_append] at hperm
    have hk0 : (removeKeys existing
          (batchKeys (computePickups processed existing))).filter
        (fun r => sameKey x r) = [] := by
      refine List.filter_eq_nil_iff.mpr (fun e he => ?_)
      intro hs
      rcases mem_kept_iff.mp he with ⟨-, hfalse⟩
      have htrue : hasKey processed e = true :=
        hasKey_iff.mpr ⟨x, hx, (sameKey_iff x e).mp hs⟩
      rw [htrue] at hfalse
      exact Bool.noConfusion hfalse
    have hw : (computePickups processed existing).filter (fun r => sameKey x r)
        = [withPickups x (findPrior existing x.property x.date)] := by
      rw [computePickups_of_uniqueKeys hE, List.filter_map]
      have hcongr : processed.filter
          ((fun r => sameKey x r) ∘
            (fun r => withPickups r (findPrior existing r.property r.date)))
            = processed.filter (fun y => sameKey x y) :=
        List.filter_congr (fun y hy => rfl)
      rw [hcongr, filter_key_self hP hx]
      rfl
    rw [hk0, hw, List.nil_append] at hperm
    exact List.perm_singleton.mp hperm

/-- Witness for C3 at the per-day example of the spec: three persisted
days, a batch carrying only day 2. -/
theorem upsert_key_scope_witness :
    ((update_google_sheet batch3 ex3).filter
        (fun r => !(hasKey batch3 r))).Perm
      (ex3.filter (fun r => !(hasKey batch3 r)))
    ∧ (update_google_sheet batch3 ex3).filter
          (fun r => sameKey (mkRow "A" 2 (some 135) (some 1500)) r)
        = [withPickups (mkRow "A" 2 (some 135) (some 1500))
            (findPrior ex3 (mkRow "A" 2 (some 135) (some 1500)).property
              (mkRow "A" 2 (some 135) (some 1500)).date)] := by
  obtain ⟨h1, h2⟩ := upsert_key_scope batch3 ex3 (by decide) (by decide)
  exact ⟨h1, h2 _ (by decide)⟩

/-- C4 (counterexample): the claim predicts that a batch holding two rows
at the same key leaves at most one persisted row per key (last occurrence
authoritative); instead the code persists both duplicates, so the key is
not unique after the write. -/
theorem upsert_unique_keys_counterexample :
    ¬ uniqueKeys (update_google_sheet dupBatch []) ∧
      (update_google_sheet dupBatch []).length = 2 := by
  constructor
  · norm_num [uniqueKeys, update_google_sheet, computePickups, leftMergePrev,
      withPickups, subFillna, mkRow, dupBatch, batchKeys, keyOf, removeKeys,
      sortRows, insertRow, rowLE, sameKey]
  · norm_num [update_google_sheet, computePickups, leftMergePrev,
      withPickups, subFillna, mkRow, dupBatch, batchKeys, keyOf, removeKeys,
      sortRows, insertRow, rowLE, sameKey]

/-- C4 (amended): when the incoming batch has pairwise-distinct
`(property, date)` keys and the prior persisted table satisfies the key
uniqueness invariant, the table after the upsert write also has a unique
`(property, date)` key across all rows. -/
theorem upsert_unique_keys (processed existing : List Row)
    (hP : uniqueKeys processed) (hE : uniqueKeys existing) :
    uniqueKeys (update_google_sheet processed existing) := by
  have hperm := (update_perm processed existing).map keyOf
  refine hperm.nodup_iff.mpr ?_
  rw [List.map_append, List.nodup_append]
  refine ⟨?_, ?_, ?_⟩
  · rw [removeKeys_eq_filter]
    exact List.Nodup.sublist ((List.filter_sublist existing).map keyOf) hE
  · rw [computePickups_of_uniqueKeys hE, List.map_map]
    have hmap : List.map
        (keyOf ∘ fun r => withPickups r (findPrior existing r.property r.date))
          processed = List.map keyOf processed :=
      List.map_congr_left (fun a _ => rfl)
    rw [hmap]
    exact hP
  · intro k hk1 hk2
    rcases List.mem_map.mp hk1 with ⟨e, he, rfl⟩
    rcases mem_kept_iff.mp he with ⟨-, hfalse⟩
    rcases List.mem_map.mp (keyOf_mem_computePickups.mp hk2) with ⟨x, hx, hkx⟩
    have htrue : hasKey processed e = true := hasKey_iff.mpr ⟨x, hx, hkx⟩
    rw [htrue] at hfalse
    exact Bool.noConfusion hfalse

/-- Witness for C4 at a concrete input: distinct-key batch over a
unique-key table. -/
theorem upsert_unique_keys_witness :
    uniqueKeys (update_google_sheet batch2 ex2) :=
  upsert_unique_keys batch2 ex2 (by decide) (by decide)

@[simp]
lemma keyJ_mkBoth (x y : CRow) : keyJ (mkBoth x y) = keyC x := rfl

@[simp]
lemma keyJ_mkActualOnly (x : CRow) : keyJ (mkActualOnly x) = keyC x := rfl

@[simp]
lemma keyJ_mkBudgetOnly (y : CRow) : keyJ (mkBudgetOnly y) = keyC y := rfl

@[simp]
lemma mkBoth_actualOcc (x y : CRow) : (mkBoth x y).actualOcc = x.occ := rfl

@[simp]
lemma mkActualOnly_actualOcc (x : CRow) : (mkActualOnly x).actualOcc = x.occ := rfl

@[simp]
lemma mkBudgetOnly_actualOcc (y : CRow) : (mkBudgetOnly y).actualOcc = none := rfl

lemma sameKeyC_iff (a b : CRow) : sameKeyC a b = true ↔ keyC a = keyC b := by
  simp [sameKeyC, keyC, Prod.ext_iff]

lemma filter_sameKeyC_of_uniqueKeysC {b : List CRow} (h : uniqueKeysC b)
    (x : CRow) :
    b.filter (fun y => sameKeyC x y) = (findMatch b x).toList := by
  induction b with
  | nil => simp [findMatch]
  | cons e ex ih =>
      have hnd := h
      unfold uniqueKeysC at hnd
      simp only [List.map_cons, List.nodup_cons] at hnd
      obtain ⟨hke, hnd2⟩ := hnd
      by_cases hk : sameKeyC x e = true
      · have hfind : findMatch (e :: ex) x = some e := by
          unfold findMatch
          rw [List.find?_cons_of_pos]
          exact hk
        rw [hfind]
        have hrest : ex.filter (fun y => sameKeyC x y) = [] := by
          refine List.filter_eq_nil_iff.mpr (fun y hy => ?_)
          intro hk2
          exact hke (List.mem_map.mpr ⟨y, hy,
            ((sameKeyC_iff x y).mp hk2).symm.trans ((sameKeyC_iff x e).mp hk)⟩)
        simp [List.filter_cons, hk, hrest, Option.toList]
      · have hfind : findMatch (e :: ex) x = findMatch ex x := by
          unfold findMatch
          rw [List.find?_cons_of_neg]
          simpa using hk
        rw [hfind, ← ih hnd2]
        simp [List.filter_cons, hk]

lemma joinRow_of_findMatch_none {b : List CRow} {x : CRow}
    (h : findMatch b x = none) : joinRow b x = mkActualOnly x := by
  unfold joinRow
  rw [h]

lemma joinRow_of_findMatch_some {b : List CRow} {x y : CRow}
    (h : findMatch b x = some y) : joinRow b x = mkBoth x y := by
  unfold joinRow
  rw [h]

@[simp]
lemma keyJ_joinRow (b : List CRow) (x : CRow) : keyJ (joinRow b x) = keyC x := by
  unfold joinRow
  cases findMatch b x <;> simp

lemma outerMerge_of_uniqueKeysC {b : List CRow} (hB : uniqueKeysC b)
    (a : List CRow) :
    outerMerge a b = a.map (joinRow b)
      ++ (b.filter (fun y => !(a.any (fun x => sameKeyC x y)))).map mkBudgetOnly := by
  unfold outerMerge
  congr 1
  induction a with
  | nil => simp
  | cons x xs ih =>
      rw [List.flatMap_cons, ih, List.map_cons]
      rw [filter_sameKeyC_of_uniqueKeysC hB x]
      cases hfm : findMatch b x with
      | none => simp [Option.toList, joinRow_of_findMatch_none hfm]
      | some y => simp [Option.toList, joinRow_of_findMatch_some hfm]

/-- Ordered insertion on joined rows preserves the row multiset. -/
lemma insertJ_perm (r : JRow) (l : List JRow) : (insertJ r l).Perm (r :: l) := by
  induction l with
  | nil => simp [insertJ]
  | cons x xs ih =>
      unfold insertJ
      by_cases h : jLE r x = true
      · simp [h]
      · simp only [h, if_neg]
        exact (ih.cons x).trans (List.Perm.swap r x xs)

lemma sortJ_perm (l : List JRow) : (sortJ l).Perm l := by
  induction l with
  | nil => simp [sortJ]
  | cons r rs ih =>
      exact (insertJ_perm r (sortJ rs)).trans (ih.cons r)

lemma keys_outerMerge_nodup {a b : List CRow} (hA : uniqueKeysC a)
    (hB : uniqueKeysC b) : ((outerMerge a b).map keyJ).Nodup := by
  rw [outerMerge_of_uniqueKeysC hB a, List.map_append, List.nodup_append,
    List.map_map, List.map_map]
  refine ⟨?_, ?_, ?_⟩
  · have hmap : List.map (keyJ ∘ joinRow b) a = List.map keyC a :=
      List.map_congr_left (fun x _ => by simp)
    rw [hmap]
    exact hA
  · have hmap : List.map (keyJ ∘ mkBudgetOnly)
        (b.filter (fun y => !(a.any (fun x => sameKeyC x y))))
          = List.map keyC (b.filter (fun y => !(a.any (fun x => sameKeyC x y)))) :=
      List.map_congr_left (fun y _ => by simp)
    rw [hmap]
    exact List.Nodup.sublist ((List.filter_sublist b).map keyC) hB
  · intro k hk1 hk2
    rcases List.mem_map.mp hk1 with ⟨x, hx, rfl⟩
    rcases List.mem_map.mp hk2 with ⟨y, hy, hky⟩
    rcases List.mem_filter.mp hy with ⟨hyb, hyno⟩
    have hkxy : keyC x = keyC y := by
      have : keyJ (mkBudgetOnly y) = (keyJ ∘ joinRow b) x := hky
      simpa using this.symm
    have hany : a.any (fun x => sameKeyC x y) = true :=
      List.any_eq_true.mpr ⟨x, hx, (sameKeyC_iff x y).mpr hkxy⟩
    rw [hany] at hyno
    exact Bool.noConfusion hyno

/-- C5: on the spec's own example the History subtotal rate is the
weighted 16000/150, but the Forecast subtotal and the Total row also
report 16000/150 — the History partition ratio — instead of the Forecast
partition ratio 2000/10 and the all-rows ratio 18000/160 (lines 196 and
212 reuse `history_data`); and the Budget rate aggregate is the plain
rounded mean 150 of the per-row rates, not the weighted 16000/150. -/
theorem rate_aggregates_divergence :
    (history_row mergedEx).actualRate = some (16000 / 150) ∧
      (forecast_row mergedEx).actualRate = some (16000 / 150) ∧
      some ((16000 : ℚ) / 150) ≠ some ((2000 : ℚ) / 10) ∧
      (total_row mergedEx).actualRate = some (16000 / 150) ∧
      some ((16000 : ℚ) / 150) ≠ some ((18000 : ℚ) / 160) ∧
      (history_row mergedEx).budgetRate = 150 ∧
      (150 : ℚ) ≠ 16000 / 150 := by
  refine ⟨?_, ?_, ?_, ?_, ?_, ?_, ?_⟩ <;>
    · simp [history_row, forecast_row, total_row, history_data,
        forecast_data, safe_sum, safe_mean, rateDiv, round2, roundHalfEven,
        mergedEx, mkMRow, List.filter_cons, List.filterMap_cons]
      norm_num

lemma countP_keyJ_eq_one {l : List JRow} (h : (l.map keyJ).Nodup)
    {j0 : JRow} (hj : j0 ∈ l) :
    l.countP (fun j => decide (keyJ j = keyJ j0)) = 1 := by
  induction l with
  | nil => cases hj
  | cons x xs ih =>
      rw [List.map_cons, List.nodup_cons] at h
      obtain ⟨hx, hnd⟩ := h
      rw [List.countP_cons]
      rcases List.mem_cons.mp hj with rfl | hj2
      · have hzero : xs.countP (fun j => decide (keyJ j = keyJ j0)) = 0 :=
          List.countP_eq_zero.mpr (fun y hy => by
            simp only [decide_eq_true_eq]
            intro hk
            exact hx (hk ▸ List.mem_map.mpr ⟨y, hy, rfl⟩))
        simp [hzero]
      · have hpx : decide (keyJ x = keyJ j0) = false := by
          simp only [decide_eq_false_iff_not]
          intro hk
          exact hx (List.mem_map.mpr ⟨j0, hj2, hk.symm⟩)
        simp [hpx, ih hnd hj2]

/-- C6 (counterexample): a key present in both series, but whose Actual
occupancy is null (for example an unparseable occupancy cell), does not
appear in the final filtered output at all — here the filter leaves
nothing and the merge phase reports the no-actual-occupancy message —
refuting the claim that every key present in both series appears once
carrying both sides of the join. -/
theorem merge_both_sides_null_occ_counterexample :
    update_tabs_core parseDigit parseDigit
        [{ property := "A", date := "1", occ := none, rate := none,
            revenue := none, label := some "History",
            pickupOcc := none, pickupRev := none }]
        [{ property := "A", date := "1", occ := some 90, rate := some 100,
            revenue := some 9000, label := some "History",
            pickupOcc := none, pickupRev := none }]
      = TabsView.noActualOcc := by
  rfl

/-- C6 (amended): when both cleaned series have unique keys and at least
one outer-join row has non-null Actual occupancy, the merge phase renders
a table holding exactly the outer-join rows whose Actual occupancy is
non-null; every key present in both series whose Actual occupancy is
non-null appears exactly once, carrying both sides of the join; and every
key present only in the Budget series is excluded. -/
theorem merge_filter_actualized (pA pB : String → Option Nat)
    (actual budget : List SRow)
    (hA : uniqueKeysC (cleanSide pA actual))
    (hB : uniqueKeysC (cleanSide pB budget))
    (hca : cleanSide pA actual ≠ [])
    (hcb : cleanSide pB budget ≠ [])
    (hne : (outerMerge (cleanSide pA actual) (cleanSide pB budget)).filter
        (fun j => j.actualOcc.isSome) ≠ []) :
    ∃ rows, update_tabs_core pA pB actual budget = TabsView.table rows ∧
      rows.Perm ((outerMerge (cleanSide pA actual) (cleanSide pB budget)).filter
        (fun j => j.actualOcc.isSome)) ∧
      (∀ x ∈ cleanSide pA actual, ∀ y ∈ cleanSide pB budget,
        keyC x = keyC y → x.occ.isSome = true →
          mkBoth x y ∈ rows ∧
            rows.countP (fun j => decide (keyJ j = keyC x)) = 1) ∧
      (∀ y ∈ cleanSide pB budget,
        (∀ x ∈ cleanSide pA actual, keyC x ≠ keyC y) →
          ∀ j ∈ rows, keyJ j ≠ keyC y) := by
  set ca := cleanSide pA actual with hca_def
  set cb := cleanSide pB budget with hcb_def
  set filt := (outerMerge ca cb).filter (fun j => j.actualOcc.isSome)
    with hfilt_def
  have hmne : outerMerge ca cb ≠ [] := by
    intro hm
    apply hne
    rw [hfilt_def, hm]
    simp
  have hps : sortJ filt ≠ [] := by
    intro hnil
    have hp := sortJ_perm filt
    rw [hnil] at hp
    exact hne (List.perm_nil.mp hp.symm)
  have hview : update_tabs_core pA pB actual budget
      = TabsView.table (sortJ filt) := by
    unfold update_tabs_core
    rw [← hca_def, ← hcb_def]
    simp only [List.isEmpty_eq_false.mpr hca, List.isEmpty_eq_false.mpr hcb,
      List.isEmpty_eq_false.mpr hmne, List.isEmpty_eq_false.mpr hps,
      Bool.false_eq_true, if_false]
  refine ⟨sortJ filt, hview, sortJ_perm filt, ?_, ?_⟩
  · intro x hx y hy hkey hocc
    have hfm : findMatch cb x = some y := by
      have hyfilter : y ∈ cb.filter (fun q => sameKeyC x q) :=
        List.mem_filter.mpr ⟨hy, (sameKeyC_iff x y).mpr hkey⟩
      rw [filter_sameKeyC_of_uniqueKeysC hB x] at hyfilter
      exact Option.mem_def.mp (Option.mem_toList.mp hyfilter)
    have hjmem : mkBoth x y ∈ outerMerge ca cb := by
      rw [outerMerge_of_uniqueKeysC hB ca]
      exact List.mem_append_left _
        (List.mem_map.mpr ⟨x, hx, joinRow_of_findMatch_some hfm⟩)
    have hfmem : mkBoth x y ∈ filt :=
      List.mem_filter.mpr ⟨hjmem, by simpa using hocc⟩
    refine ⟨(sortJ_perm filt).mem_iff.mpr hfmem, ?_⟩
    have hnodup : (filt.map keyJ).Nodup :=
      List.Nodup.sublist ((List.filter_sublist _).map keyJ)
        (keys_outerMerge_nodup hA hB)
    rw [List.Perm.countP_eq _ (sortJ_perm filt)]
    exact countP_keyJ_eq_one hnodup hfmem
  · intro y hy hnomatch j hj hkeyeq
    have hjf : j ∈ filt := (sortJ_perm filt).mem_iff.mp hj
    rcases List.mem_filter.mp hjf with ⟨hjm, hjocc⟩
    rw [outerMerge_of_uniqueKeysC hB ca] at hjm
    rcases List.mem_append.mp hjm with hleft | hright
    · rcases List.mem_map.mp hleft with ⟨x, hx, rfl⟩
      have hk : keyC x = keyC y := by simpa using hkeyeq
      exact hnomatch x hx hk
    · rcases List.mem_map.mp hright with ⟨q, hq, rfl⟩
      simp at hjocc

/-- Witness for C6 at a concrete input: a matched day appears once with
both sides, and the budget-only day 2 is excluded. -/
theorem merge_filter_actualized_witness :
    ∃ rows, update_tabs_core parseDigit parseDigit sActual sBudget
        = TabsView.table rows ∧
      mkBoth cActual1 cBudget1 ∈ rows ∧ ∀ j ∈ rows, keyJ j ≠ ("A", 2) := by
  obtain ⟨rows, hview, hperm, hboth, hexcl⟩ :=
    merge_filter_actualized parseDigit parseDigit sActual sBudget
      (by decide) (by decide) (by decide) (by decide) (by decide)
  refine ⟨rows, hview,
    (hboth cActual1 (by decide) cBudget1 (by decide) (by decide) (by decide)).1,
    fun j hj => ?_⟩
  exact hexcl cBudget2 (by decide) (by decide) j hj

/-- C8: rows with unparseable dates are dropped independently per side
before the join, so a bad-date row on one side never changes the result
computed from the other side; and a side left empty after cleaning is
surfaced as a distinguishable explanatory value of the (total) merge
function, never an exception. -/
theorem merge_sides_independent (pA pB : String → Option Nat)
    (actual budget : List SRow) (bad : SRow) :
    (pB bad.date = none →
      update_tabs_core pA pB actual (bad :: budget)
        = update_tabs_core pA pB actual budget) ∧
    (pA bad.date = none →
      update_tabs_core pA pB (bad :: actual) budget
        = update_tabs_core pA pB actual budget) ∧
    (cleanSide pA actual = [] →
      update_tabs_core pA pB actual budget = TabsView.noActualData) ∧
    (cleanSide pA actual ≠ [] → cleanSide pB budget = [] →
      update_tabs_core pA pB actual budget = TabsView.noBudgetData) := by
  refine ⟨?_, ?_, ?_, ?_⟩
  · intro h
    have hclean : cleanSide pB (bad :: budget) = cleanSide pB budget := by
      unfold cleanSide
      rw [List.filterMap_cons]
      simp [h]
    unfold update_tabs_core
    rw [hclean]
  · intro h
    have hclean : cleanSide pA (bad :: actual) = cleanSide pA actual := by
      unfold cleanSide
      rw [List.filterMap_cons]
      simp [h]
    unfold update_tabs_core
    rw [hclean]
  · intro h
    unfold update_tabs_core
    rw [h]
    simp
  · intro h1 h2
    unfold update_tabs_core
    rw [h2]
    simp [List.isEmpty_eq_false.mpr h1]

/-- Witness for C8 at a concrete input: an unparseable-date Budget row
leaves the merge result unchanged, and an empty Actual side surfaces the
explanatory no-actual-data value. -/
theorem merge_sides_independent_witness :
    (update_tabs_core parseDigit parseDigit sActual (sBad :: sBudget)
        = update_tabs_core parseDigit parseDigit sActual sBudget) ∧
      update_tabs_core parseDigit parseDigit [] sBudget
        = TabsView.noActualData := by
  constructor
  · exact (merge_sides_independent parseDigit parseDigit
      sActual sBudget sBad).1 (by decide)
  · exact (merge_sides_independent parseDigit parseDigit
      [] sBudget sBad).2.2.1 (by decide)

/-- C9: with an empty History partition (every row Forecast), the rate
aggregates of all three synthetic rows divide by the plain-integer zero
that `safe_sum` returns, which in Python raises `ZeroDivisionError`; no
defined rate value is produced. -/
theorem zero_occupancy_rate_fault :
    (history_row mergedAllForecast).actualRate = none ∧
      (forecast_row mergedAllForecast).actualRate = none ∧
      (total_row mergedAllForecast).actualRate = none := by
  refine ⟨?_, ?_, ?_⟩ <;>
    · simp [history_row, forecast_row, total_row, history_data,
        forecast_data, safe_sum, rateDiv, mergedAllForecast, mkMRow,
        List.filter_cons, List.filterMap_cons]

lemma uploadLoop_append_error (pf : String → String → Except String (List Row))
    (pre : List (String × String)) (c n : String)
    (rest : List (String × String)) (e : String) :
    ∀ acc, (∀ f ∈ pre, (pf f.1 f.2).isOk = true) → pf c n = Except.error e →
      uploadLoop pf (pre ++ (c, n) :: rest) acc = Except.error (n, e) := by
  induction pre with
  | nil =>
      intro acc hpre herr
      simp [uploadLoop, herr]
  | cons g gs ih =>
      intro acc hpre herr
      obtain ⟨c2, n2⟩ := g
      have hok := hpre (c2, n2) (by simp)
      cases hpf : pf c2 n2 with
      | error e2 =>
          rw [hpf] at hok
          simp [Except.isOk, Except.toBool] at hok
      | ok df =>
          rw [List.cons_append]
          show uploadLoop pf ((c2, n2) :: (gs ++ (c, n) :: rest)) acc = _
          rw [uploadLoop]
          simp only [hpf]
          exact ih _ (fun f hf => hpre f (List.mem_cons_of_mem _ hf)) herr

/-- C7 (counterexample): the claim predicts that a failing file does not
abort the processing of the rest of the batch; instead the loop returns
at the first failure, so a batch whose first file fails produces only
the per-file error and never processes the second file, which alone would
have updated the table. -/
theorem upload_batch_abort_counterexample :
    handle_upload pfToy [("x", "bad.xlsx"), ("y", "good.xlsx")] []
        = (UploadView.errorFile "bad.xlsx" "boom", []) ∧
      handle_upload pfToy [("y", "good.xlsx")] []
        = (UploadView.updated 1 1,
            update_google_sheet [mkRow "A" 1 (some 1) (some 10)] []) := by
  constructor
  · rfl
  · rfl

/-- C7 (amended): a normalization failure is surfaced with the failing
file name and message, and aborts the batch: with any files before the
failing one succeeding, the upload returns the error for the failing file
and leaves the persisted table untouched; the files after the failure are
never examined. -/
theorem upload_error_names_failing_file
    (pf : String → String → Except String (List Row))
    (pre rest : List (String × String)) (c n e : String) (table : List Row)
    (hpre : ∀ f ∈ pre, (pf f.1 f.2).isOk = true)
    (herr : pf c n = Except.error e) :
    handle_upload pf (pre ++ (c, n) :: rest) table
      = (UploadView.errorFile n e, table) := by
  unfold handle_upload
  have hne : (pre ++ (c, n) :: rest).isEmpty = false := by
    cases pre <;> simp
  rw [hne]
  simp only [Bool.false_eq_true, if_false]
  rw [uploadLoop_append_error pf pre c n rest e [] hpre herr]

/-- Witness for C7 at a concrete input: one succeeding file before the
failure, one never-examined file after it. -/
theorem upload_error_names_failing_file_witness :
    handle_upload pfToy
        [("y", "good.xlsx"), ("x", "bad.xlsx"), ("z", "good2.xlsx")] ex2
      = (UploadView.errorFile "bad.xlsx" "boom", ex2) :=
  upload_error_names_failing_file pfToy [("y", "good.xlsx")]
    [("z", "good2.xlsx")] "x" "bad.xlsx" "boom" ex2 (by decide) rfl

lemma uploadLoop_error_of_failure
    (pf : String → String → Except String (List Row)) :
    ∀ (files : List (String × String)),
      (∃ f ∈ files, (pf f.1 f.2).isOk = false) →
      ∀ acc, ∃ ne, uploadLoop pf files acc = Except.error ne := by
  intro files
  induction files with
  | nil =>
      rintro ⟨f, hf, -⟩
      simp at hf
  | cons g gs ih =>
      rintro ⟨f, hf, hfk⟩ acc
      obtain ⟨c2, n2⟩ := g
      cases hpf : pf c2 n2 with
      | error e2 =>
          exact ⟨(n2, e2), by simp [uploadLoop, hpf]⟩
      | ok df =>
          rcases List.mem_cons.mp hf with rfl | hf2
          · rw [hpf] at hfk
            simp [Except.isOk, Except.toBool] at hfk
          · obtain ⟨ne, hne⟩ := ih ⟨f, hf2, hfk⟩
              (if df.isEmpty then acc else acc ++ [df])
            refine ⟨ne, ?_⟩
            rw [uploadLoop]
            simp only [hpf]
            exact hne

/-- C10: if any file of the batch fails normalization, the upload writes
nothing: the persisted table component of the result is exactly the input
table, even when earlier files of the batch normalized successfully. -/
theorem upload_failure_no_write
    (pf : String → String → Except String (List Row))
    (files : List (String × String)) (table : List Row)
    (h : ∃ f ∈ files, (pf f.1 f.2).isOk = false) :
    (handle_upload pf files table).2 = table := by
  unfold handle_upload
  cases files with
  | nil =>
      simp
  | cons g gs =>
      obtain ⟨ne, hloop⟩ := uploadLoop_error_of_failure pf (g :: gs) h []
      obtain ⟨n2, e2⟩ := ne
      simp [hloop]

/-- Witness for C10 at a concrete input: a batch with one good file and
one bad file leaves the table exactly as it was. -/
theorem upload_failure_no_write_witness :
    (handle_upload pfToy [("y", "good.xlsx"), ("x", "bad.xlsx")] ex2).2
      = ex2 :=
  upload_failure_no_write pfToy [("y", "good.xlsx"), ("x", "bad.xlsx")] ex2
    ⟨("x", "bad.xlsx"), by decide, by decide⟩

end HashooStats
